import Mathlib

/-!
Verification development for the fable repository (Discord gacha/merge bot).

The sections below give a shallow embedding of the algorithmic core:

* `getSacrifices` from `src/merge.ts` (sacrifice grouping for synthesis),
* `rng` and `shuffle` from `src/utils.ts` (weighted sampling),
* `pool` from `src/packs.ts` (candidate pool assembly and dedup filter),
* `Rating.stars`, modelled from the specification because `src/rating.ts`
  is not among the provided sources.

JavaScript machine numbers in the relevant code paths are small non-negative
integers (ratings 1..5, popularity counts, percentage weights), embedded as
`Nat`.  JavaScript runtime failures (property access on `undefined`, reduce of
an empty array) are embedded as explicit `typeError` values of an `Except`
monad.  `Math.random()` draws are embedded as an oracle parameter supplying
the integer result of each draw.
-/

/-- An owned character as seen by `getSacrifices` from `src/merge.ts`: the code
only reads `value.rating`; `id` stands for the rest of the record and keeps
distinct cards distinct. -/
structure OwnedChar where
  id : Nat
  rating : Nat
deriving DecidableEq, Repr

/-- Selection mode of `getSacrifices` from `src/merge.ts`. -/
inductive MergeMode
  | target
  | min
  | max
deriving DecidableEq, Repr

/-- Failure outcomes of `getSacrifices` from `src/merge.ts`.
`typeError` embeds a JavaScript TypeError from indexing a record with a key
that is not present (rating outside 1..5, target outside 1..5, or the
`possibilities[target - 1]` read when `target` is 1).
`mergeNotPossible` and `mergeInsufficient` embed the two `NonFetalError`
throws; `mergeInsufficient` carries the i18n arguments: the count of
possibilities at the tier below the target, and the target tier. -/
inductive MergeErr
  | typeError
  | mergeNotPossible
  | mergeInsufficient (count : Nat) (target : Nat)
deriving DecidableEq, Repr

/-- Fuel-driven worker for `chunks`: structural recursion on the fuel so that
concrete evaluation reduces definitionally. -/
def chunksAux (n : Nat) : Nat → List α → List (List α)
  | _, [] => []
  | 0, _ :: _ => []
  | fuel + 1, x :: xs => (x :: xs.take (n - 1)) :: chunksAux n fuel (xs.drop (n - 1))

/-- `utils.chunks` (the std `chunk` helper): splits a list into consecutive
chunks of `n` elements, the last chunk possibly shorter. -/
def chunks (n : Nat) (l : List α) : List (List α) :=
  chunksAux n l.length l

/-- The `possibilities` record of `getSacrifices`, keyed 1..5; every other key
is absent, kept here as the empty list with the absence handled where the
code would hit `undefined`. -/
def PossMap : Type :=
  Nat → List (List OwnedChar)

/-- The `split` record of `getSacrifices`: bucket index of a rating, folding
rating 5 into bucket 4 (`char.value.rating === 5 ? 4 : char.value.rating`). -/
def bucketIdx (r : Nat) : Nat :=
  if r == 5 then 4 else r

/-- The `split` record of `getSacrifices`: characters of the sorted list whose
bucket index is `i`, in sorted order (the forEach pushes them in order). -/
def splitFun (sorted : List OwnedChar) (i : Nat) : List OwnedChar :=
  sorted.filter (fun c => bucketIdx c.rating == i)

/-- The early-break check at the top of each loop iteration of
`getSacrifices`: `if (target && possibilities[target].length) return`.
A target of 0 is falsy; a target outside 1..5 reads `.length` of `undefined`
and raises a TypeError. -/
def skipCheck (target? : Option Nat) (p : PossMap) : Except MergeErr Bool :=
  match target? with
  | none => .ok false
  | some t =>
    if t = 0 then .ok false
    else if 1 ≤ t ∧ t ≤ 5 then .ok (!(p t).isEmpty)
    else .error .typeError

/-- The fold of tier `i - 1` possibilities into tier `i` possibilities:
`floor(count/5)` full chunks of 5 previous possibilities, each flattened. -/
def possFold (p : PossMap) (i : Nat) : List (List OwnedChar) :=
  if 1 < i then
    ((chunks 5 (p (i - 1))).take ((p (i - 1)).length / 5)).map List.flatten
  else []

/-- One iteration of the `[1, 2, 3, 4, 5].forEach` loop of `getSacrifices`:
early-break check, then push the folded chunks and the singleton possibilities
of tier `i`. -/
def possStep (sp : Nat → List OwnedChar) (target? : Option Nat) (p : PossMap)
    (i : Nat) : Except MergeErr PossMap :=
  match skipCheck target? p with
  | .error e => .error e
  | .ok true => .ok p
  | .ok false =>
      .ok (fun j =>
        if j = i then p i ++ possFold p i ++ (sp i).map (fun c => [c]) else p j)

/-- The `[1, 2, 3, 4, 5].forEach` loop of `getSacrifices`, unrolled over the
literal index list of the source. -/
def buildPoss (sp : Nat → List OwnedChar) (target? : Option Nat) :
    Except MergeErr PossMap :=
  match possStep sp target? (fun _ => []) 1 with
  | .error e => .error e
  | .ok p1 =>
    match possStep sp target? p1 2 with
    | .error e => .error e
    | .ok p2 =>
      match possStep sp target? p2 3 with
      | .error e => .error e
      | .ok p3 =>
        match possStep sp target? p3 4 with
        | .error e => .error e
        | .ok p4 =>
          match possStep sp target? p4 5 with
          | .error e => .error e
          | .ok p5 => .ok p5

/-- Whether some possibility at tier `n` has at least 5 members
(`possibilities[n].findIndex((t) => t.length >= 5) > -1`). -/
def tierHasFive (p : PossMap) (n : Nat) : Bool :=
  (p n).any (fun g => decide (5 ≤ g.length))

/-- The `switch (mode)` of `getSacrifices`: in `min` mode scan tiers 5,4,3,2
and keep the last (lowest) tier with a possibility of 5 or more; in `max`
mode scan 2,3,4,5 and keep the last (highest); in `target` mode keep the
passed target. -/
def selectTarget (p : PossMap) (mode : MergeMode) (target? : Option Nat) :
    Option Nat :=
  match mode with
  | .target => target?
  | .min =>
      [5, 4, 3, 2].foldl (fun acc n => if tierHasFive p n then some n else acc)
        target?
  | .max =>
      [2, 3, 4, 5].foldl (fun acc n => if tierHasFive p n then some n else acc)
        target?

/-- The body of `getSacrifices` from `src/merge.ts` after the initial sort:
the sorted input is bucketed by rating with rating 5 folded into bucket 4,
possibilities are folded tier by tier, and a group is selected by mode.
A rating outside 1..5 makes the JavaScript `split[...] .push` hit
`undefined` and is embedded as a `typeError`; the all-ratings check is
performed on the sorted copy before bucketing, which is observationally the
same in the `Except` embedding. -/
def sacrificesFromSorted (sorted : List OwnedChar) (mode : MergeMode)
    (target? : Option Nat) : Except MergeErr (List OwnedChar × Nat) :=
  if !(sorted.all fun c => decide (1 ≤ c.rating) && decide (c.rating ≤ 5)) then
    .error .typeError
  else
    match buildPoss (splitFun sorted) target? with
    | .error e => .error e
    | .ok p =>
      match selectTarget p mode target? with
      | none => .error .mergeNotPossible
      | some t =>
        if t = 0 then .error .mergeNotPossible
        else if 1 ≤ t ∧ t ≤ 5 then
          match (p t).find? (fun g => decide (5 ≤ g.length)) with
          | some g => .ok (g, t)
          | none =>
            if t = 1 then .error .typeError
            else .error (.mergeInsufficient (p (t - 1)).length t)
        else .error .typeError

/-- `getSacrifices` composed with its initial sort: the input is first copied
and sorted ascending by rating (`toSorted` with the rating comparator, a
stable sort). -/
def getSacrifices (characters : List OwnedChar) (mode : MergeMode)
    (target? : Option Nat) : Except MergeErr (List OwnedChar × Nat) :=
  sacrificesFromSorted
    (characters.insertionSort (fun a b => a.rating ≤ b.rating)) mode target?

/-- The fixture of the `auto merge` tests: 25 characters all rated 1. -/
def ones25 : List OwnedChar :=
  (List.range 25).map (fun i => ⟨i, 1⟩)

/-- The first five of the 25 rating-1 characters. -/
def ones5 : List OwnedChar :=
  (List.range 5).map (fun i => ⟨i, 1⟩)

/-- The fixture of the `4 fours + 1 five` test: four rating-4 characters and
one rating-5 character. -/
def fours4five1 : List OwnedChar :=
  (List.range 4).map (fun i => ⟨i, 4⟩) ++ [⟨4, 5⟩]


/-! ### Structural lemmas about `chunks`, `flatten` and the possibility fold -/

theorem chunksAux_flatten (n : Nat) :
    ∀ (fuel : Nat) (l : List α), l.length ≤ fuel →
      (chunksAux n fuel l).flatten = l := by
  intro fuel
  induction fuel with
  | zero =>
    intro l hl
    cases l with
    | nil => rfl
    | cons x xs => simp at hl
  | succ fuel ih =>
    intro l hl
    cases l with
    | nil => rfl
    | cons x xs =>
      simp only [List.length_cons] at hl
      simp only [chunksAux, List.flatten_cons]
      rw [ih (xs.drop (n - 1)) (by simp only [List.length_drop]; omega)]
      simp [List.cons_append, List.take_append_drop]

theorem chunks_flatten (n : Nat) (l : List α) : (chunks n l).flatten = l :=
  chunksAux_flatten n l.length l (Nat.le_refl _)

theorem sublist_flatten_of_sublist {L M : List (List α)} (h : List.Sublist L M) :
    List.Sublist L.flatten M.flatten := by
  induction h with
  | slnil => exact List.Sublist.refl _
  | cons a h ih => exact ih.trans (List.sublist_append_right _ _)
  | cons₂ a h ih => exact ih.append_left _

theorem flatten_take_sublist (L : List (List α)) (k : Nat) :
    List.Sublist (L.take k).flatten L.flatten :=
  sublist_flatten_of_sublist (List.take_sublist k L)

theorem sublist_flatten_of_mem {g : List α} {L : List (List α)} (h : g ∈ L) :
    List.Sublist g L.flatten := by
  induction L with
  | nil => cases h
  | cons x L ih =>
    rcases List.mem_cons.1 h with rfl | h
    · exact List.sublist_append_left _ _
    · exact (ih h).trans (List.sublist_append_right _ _)

theorem flatten_map_singleton (l : List α) :
    (l.map (fun c => [c])).flatten = l := by
  induction l with
  | nil => rfl
  | cons x xs ih => simp [ih]

/-- All characters available for possibilities at tiers up to `i`: the sorted
input restricted to bucket indices at most `i`. -/
def tierBound (sorted : List OwnedChar) (i : Nat) : List OwnedChar :=
  sorted.filter (fun c => decide (bucketIdx c.rating ≤ i))

/-- Invariant of the possibility loop: at every tier the characters used by
that tier, counted with multiplicity, are drawn from the sorted input
restricted to that tier and below. -/
def PossInv (sorted : List OwnedChar) (p : PossMap) : Prop :=
  ∀ i, (p i).flatten.Subperm (tierBound sorted i)

theorem count_filter_eq (p : OwnedChar → Bool) (l : List OwnedChar)
    (x : OwnedChar) :
    (l.filter p).count x = if p x = true then l.count x else 0 := by
  by_cases h : p x = true
  · rw [if_pos h, List.count_filter h]
  · rw [if_neg h]
    refine List.count_eq_zero.2 ?_
    intro hx
    exact h (List.of_mem_filter hx)

theorem fold_split_subperm (sorted : List OwnedChar) (i : Nat) (hi : 1 ≤ i)
    (A : List OwnedChar) (hA : A.Subperm (tierBound sorted (i - 1))) :
    (A ++ splitFun sorted i).Subperm (tierBound sorted i) := by
  rw [List.subperm_ext_iff]
  intro x hx
  rw [List.count_append]
  have hA' := hA.count_le x
  have h1 : (tierBound sorted (i - 1)).count x
      = if bucketIdx x.rating ≤ i - 1 then sorted.count x else 0 := by
    simpa [decide_eq_true_eq] using
      count_filter_eq (fun c => decide (bucketIdx c.rating ≤ i - 1)) sorted x
  have h2 : (splitFun sorted i).count x
      = if bucketIdx x.rating = i then sorted.count x else 0 := by
    simpa [beq_iff_eq] using
      count_filter_eq (fun c => bucketIdx c.rating == i) sorted x
  have h3 : (tierBound sorted i).count x
      = if bucketIdx x.rating ≤ i then sorted.count x else 0 := by
    simpa [decide_eq_true_eq] using
      count_filter_eq (fun c => decide (bucketIdx c.rating ≤ i)) sorted x
  rw [h2, h3]
  rw [h1] at hA'
  split_ifs at hA' ⊢ <;> omega

theorem possFold_flatten_subperm (sorted : List OwnedChar) (p : PossMap)
    (i : Nat) (hinv : PossInv sorted p) :
    (possFold p i).flatten.Subperm (tierBound sorted (i - 1)) := by
  unfold possFold
  by_cases h : 1 < i
  · rw [if_pos h]
    have h1 : (((chunks 5 (p (i - 1))).take ((p (i - 1)).length / 5)).map
        List.flatten).flatten
        = ((chunks 5 (p (i - 1))).take ((p (i - 1)).length / 5)).flatten.flatten :=
      (List.flatten_flatten).symm
    rw [h1]
    have h2 : List.Sublist
        ((chunks 5 (p (i - 1))).take ((p (i - 1)).length / 5)).flatten
        (chunks 5 (p (i - 1))).flatten :=
      flatten_take_sublist _ _
    rw [chunks_flatten] at h2
    have h3 := sublist_flatten_of_sublist h2
    exact h3.subperm.trans (hinv (i - 1))
  · rw [if_neg h]
    exact List.nil_subperm

theorem possStep_ok (sorted : List OwnedChar) (t? : Option Nat) (p q : PossMap)
    (i : Nat) (hi : 1 ≤ i) (hpi : p i = []) (hinv : PossInv sorted p)
    (hstep : possStep (splitFun sorted) t? p i = .ok q) :
    PossInv sorted q ∧ (∀ j, j ≠ i → q j = p j) ∧
      (q i = p i ∨
        q i = p i ++ possFold p i ++ (splitFun sorted i).map (fun c => [c])) := by
  unfold possStep at hstep
  cases hsk : skipCheck t? p with
  | error e =>
    rw [hsk] at hstep
    exact absurd hstep (by simp)
  | ok b =>
    rw [hsk] at hstep
    cases b with
    | true =>
      injection hstep with hq
      subst hq
      exact ⟨hinv, fun j _ => rfl, Or.inl rfl⟩
    | false =>
      injection hstep with hq
      subst hq
      refine ⟨?_, fun j hj => if_neg hj, Or.inr (if_pos rfl)⟩
      intro k
      by_cases hk : k = i
      · subst hk
        show (if k = k then p k ++ possFold p k ++ _ else p k).flatten.Subperm _
        rw [if_pos rfl, hpi, List.nil_append, List.flatten_append,
          flatten_map_singleton]
        exact fold_split_subperm sorted k hi _
          (possFold_flatten_subperm sorted p k hinv)
      · show (if k = i then _ else p k).flatten.Subperm _
        rw [if_neg hk]
        exact hinv k

theorem buildPoss_inv (sorted : List OwnedChar) (t? : Option Nat) (p : PossMap)
    (h : buildPoss (splitFun sorted) t? = .ok p) :
    PossInv sorted p ∧ ∀ g ∈ p 1, g.length = 1 := by
  unfold buildPoss at h
  cases h1 : possStep (splitFun sorted) t? (fun _ => []) 1 with
  | error e => simp only [h1] at h; exact absurd h (by simp)
  | ok p1 =>
  simp only [h1] at h
  cases h2 : possStep (splitFun sorted) t? p1 2 with
  | error e => simp only [h2] at h; exact absurd h (by simp)
  | ok p2 =>
  simp only [h2] at h
  cases h3 : possStep (splitFun sorted) t? p2 3 with
  | error e => simp only [h3] at h; exact absurd h (by simp)
  | ok p3 =>
  simp only [h3] at h
  cases h4 : possStep (splitFun sorted) t? p3 4 with
  | error e => simp only [h4] at h; exact absurd h (by simp)
  | ok p4 =>
  simp only [h4] at h
  cases h5 : possStep (splitFun sorted) t? p4 5 with
  | error e => simp only [h5] at h; exact absurd h (by simp)
  | ok p5 =>
  simp only [h5] at h
  injection h with hp
  subst hp
  have inv0 : PossInv sorted (fun _ => []) := by
    intro i
    exact List.nil_subperm
  obtain ⟨inv1, fr1, upd1⟩ :=
    possStep_ok sorted t? _ p1 1 (by omega) rfl inv0 h1
  obtain ⟨inv2, fr2, _⟩ :=
    possStep_ok sorted t? p1 p2 2 (by omega) (fr1 2 (by omega)) inv1 h2
  obtain ⟨inv3, fr3, _⟩ :=
    possStep_ok sorted t? p2 p3 3 (by omega)
      ((fr2 3 (by omega)).trans (fr1 3 (by omega))) inv2 h3
  obtain ⟨inv4, fr4, _⟩ :=
    possStep_ok sorted t? p3 p4 4 (by omega)
      (((fr3 4 (by omega)).trans (fr2 4 (by omega))).trans
        (fr1 4 (by omega))) inv3 h4
  obtain ⟨inv5, fr5, _⟩ :=
    possStep_ok sorted t? p4 p5 5 (by omega)
      ((((fr4 5 (by omega)).trans (fr3 5 (by omega))).trans
        (fr2 5 (by omega))).trans (fr1 5 (by omega))) inv4 h5
  refine ⟨inv5, ?_⟩
  have e51 : p5 1 = p1 1 :=
    (((fr5 1 (by omega)).trans (fr4 1 (by omega))).trans
      (fr3 1 (by omega))).trans (fr2 1 (by omega))
  rw [e51]
  rcases upd1 with hq | hq
  · rw [hq]
    intro g hg
    cases hg
  · rw [hq]
    intro g hg
    have : g ∈ (splitFun sorted 1).map (fun c => [c]) := by
      have hfold : possFold (fun _ => ([] : List (List OwnedChar))) 1 = [] := rfl
      simpa [hfold] using hg
    obtain ⟨c, _, rfl⟩ := List.mem_map.1 this
    rfl

theorem sacrificesFromSorted_spec (sorted : List OwnedChar) (mode : MergeMode)
    (target? : Option Nat) (sacs : List OwnedChar) (tgt : Nat)
    (h : sacrificesFromSorted sorted mode target? = .ok (sacs, tgt)) :
    sacs.Subperm sorted ∧ 5 ≤ sacs.length ∧ 2 ≤ tgt ∧ tgt ≤ 5 := by
  unfold sacrificesFromSorted at h
  split at h
  · exact absurd h (by simp)
  · cases hb : buildPoss (splitFun sorted) target? with
    | error e => rw [hb] at h; exact absurd h (by simp)
    | ok p =>
      simp only [hb] at h
      obtain ⟨hinv, hsing⟩ := buildPoss_inv sorted target? p hb
      cases hsel : selectTarget p mode target? with
      | none => rw [hsel] at h; exact absurd h (by simp)
      | some t =>
        simp only [hsel] at h
        split at h
        · exact absurd h (by simp)
        · split at h
          · cases hf : (p t).find? (fun g => decide (5 ≤ g.length)) with
            | none =>
              simp only [hf] at h
              split at h <;> exact absurd h (by simp)
            | some g =>
              simp only [hf] at h
              injection h with h
              injection h with hg ht
              subst hg
              subst ht
              rename_i hts
              have hmem : g ∈ p t := List.mem_of_find?_eq_some hf
              have hlen : 5 ≤ g.length := by
                simpa using List.find?_some hf
              have hsub : g.Subperm sorted := by
                have hfl := (sublist_flatten_of_mem hmem).subperm
                have htb : List.Sublist (tierBound sorted t) sorted :=
                  List.filter_sublist _
                exact (hfl.trans (hinv t)).trans htb.subperm
              have ht2 : 2 ≤ t := by
                by_contra hlt
                have ht1 : t = 1 := by omega
                subst ht1
                have := hsing g hmem
                omega
              exact ⟨hsub, hlen, ht2, hts.2⟩
          · exact absurd h (by simp)

/-- C9: whenever the sacrifice grouper returns normally, the returned list is
a sub-multiset of the input collection (at least 5 cards, none invented and
none duplicated), and the resolved target is an integer tier in 2..5; the
embedding is a pure function of the input list, so the input collection is
never mutated. -/
theorem getSacrifices_spec (characters : List OwnedChar) (mode : MergeMode)
    (target? : Option Nat) (sacs : List OwnedChar) (tgt : Nat)
    (h : getSacrifices characters mode target? = .ok (sacs, tgt)) :
    sacs.Subperm characters ∧ 5 ≤ sacs.length ∧ 2 ≤ tgt ∧ tgt ≤ 5 := by
  unfold getSacrifices at h
  obtain ⟨hs, h5, h2, h5t⟩ :=
    sacrificesFromSorted_spec _ _ _ _ _ h
  have hp : List.Perm
      (characters.insertionSort (fun a b => a.rating ≤ b.rating)) characters :=
    List.perm_insertionSort _ _
  exact ⟨hs.trans hp.subperm, h5, h2, h5t⟩

/-- C9 witness: the soundness theorem applied to five rating-1 characters
merged toward target 2. -/
theorem getSacrifices_spec_witness :
    getSacrifices ones5 MergeMode.target (some 2) = Except.ok (ones5, 2) ∧
      (ones5.Subperm ones5 ∧ 5 ≤ ones5.length ∧ 2 ≤ 2 ∧ 2 ≤ 5) :=
  ⟨rfl, getSacrifices_spec ones5 MergeMode.target (some 2) ones5 2 rfl⟩

/-- C1 counterexample: on 25 characters all rated 1 with mode `target` and
target 3, `getSacrifices` does not raise the insufficient-sacrifices error
claimed (count 0 at tier 3); it returns a group. -/
theorem getSacrifices_25ones_target3_no_error :
    getSacrifices ones25 MergeMode.target (some 3)
      ≠ Except.error (MergeErr.mergeInsufficient 0 3) := by
  rw [show getSacrifices ones25 MergeMode.target (some 3)
    = Except.ok (ones25, 3) from rfl]
  simp

/-- C1 (amended): on 25 characters all rated 1 with mode `target` and target
3, `getSacrifices` succeeds and returns the group of all 25 rating-1
characters with resolved target 3 (the five tier-2 possibilities fold into
one tier-3 possibility of size 25), exactly as the `25 ones` unit test of
the repository asserts. -/
theorem getSacrifices_25ones_target3 :
    getSacrifices ones25 MergeMode.target (some 3) = Except.ok (ones25, 3) ∧
      ones25.length = 25 ∧ ones25.all (fun c => c.rating == 1) = true :=
  ⟨rfl, rfl, rfl⟩

/-- C5: on 25 characters all rated 1, `min` mode resolves target 2 and
returns a group of exactly 5 rating-1 characters, while `max` mode resolves
target 3 and returns the group of all 25 rating-1 characters. -/
theorem getSacrifices_25ones_min_max :
    getSacrifices ones25 MergeMode.min none = Except.ok (ones5, 2) ∧
      getSacrifices ones25 MergeMode.max none = Except.ok (ones25, 3) ∧
      ones5.length = 5 ∧ ones5.all (fun c => c.rating == 1) = true ∧
      ones25.length = 25 ∧ ones25.all (fun c => c.rating == 1) = true :=
  ⟨rfl, rfl, rfl, rfl, rfl, rfl⟩

/-- C6: on 4 rating-4 characters and 1 rating-5 character with mode `target`
and target 5, `getSacrifices` returns exactly those 5 characters (the
rating-5 card is folded into the tier-4 bucket) and resolves target 5. -/
theorem getSacrifices_fours_five_target5 :
    getSacrifices fours4five1 MergeMode.target (some 5)
        = Except.ok (fours4five1, 5) ∧
      fours4five1.length = 5 ∧
      (fours4five1.filter (fun c => c.rating == 4)).length = 4 ∧
      (fours4five1.filter (fun c => c.rating == 5)).length = 1 :=
  ⟨rfl, rfl, rfl, rfl⟩

/-! ### `utils.shuffle` and `utils.rng` from `src/utils.ts` -/

/-- One iteration of the `utils.shuffle` loop:
`temp = array[swap]; array[swap] = array[i]; array[i] = temp`.
In the source, `swap = Math.floor(Math.random() * (i + 1))` is always within
bounds, so the fallback arm for an out-of-range index is dead code; it is
embedded as a no-op. -/
def swapStep (l : List α) (i j : Nat) : List α :=
  match l[i]?, l[j]? with
  | some a, some b => (l.set j a).set i b
  | _, _ => l

/-- `utils.shuffle` from `src/utils.ts`: a forward Fisher-Yates pass over the
indices 0..length-1.  The `Math.random()` draws are supplied by `oracle`:
`oracle i` is the value `Math.floor(Math.random() * (i + 1))` of iteration
`i` (always at most `i` in the source). -/
def shuffle (oracle : Nat → Nat) (l : List α) : List α :=
  (List.range l.length).foldl (fun arr i => swapStep arr i (oracle i)) l

theorem swapStep_length (l : List α) (i j : Nat) :
    (swapStep l i j).length = l.length := by
  unfold swapStep
  cases hi : l[i]? with
  | none => rfl
  | some a =>
    cases hj : l[j]? with
    | none => rfl
    | some b => simp

theorem mem_swapStep {x : α} {l : List α} {i j : Nat}
    (h : x ∈ swapStep l i j) : x ∈ l := by
  unfold swapStep at h
  cases hi : l[i]? with
  | none => rw [hi] at h; exact h
  | some a =>
    cases hj : l[j]? with
    | none => rw [hi, hj] at h; exact h
    | some b =>
      rw [hi, hj] at h
      rcases List.mem_or_eq_of_mem_set h with h1 | rfl
      · rcases List.mem_or_eq_of_mem_set h1 with h2 | rfl
        · exact h2
        · exact List.getElem?_mem hi
      · exact List.getElem?_mem hj

theorem shuffle_length_aux (oracle : Nat → Nat) :
    ∀ (xs : List Nat) (arr : List α),
      (xs.foldl (fun arr i => swapStep arr i (oracle i)) arr).length
        = arr.length := by
  intro xs
  induction xs with
  | nil => intro arr; rfl
  | cons x xs ih =>
    intro arr
    rw [List.foldl_cons, ih, swapStep_length]

theorem shuffle_length (oracle : Nat → Nat) (l : List α) :
    (shuffle oracle l).length = l.length :=
  shuffle_length_aux oracle _ l

theorem mem_shuffle_aux (oracle : Nat → Nat) :
    ∀ (xs : List Nat) (arr : List α) (x : α),
      x ∈ xs.foldl (fun arr i => swapStep arr i (oracle i)) arr → x ∈ arr := by
  intro xs
  induction xs with
  | nil => intro arr x h; exact h
  | cons y ys ih =>
    intro arr x h
    rw [List.foldl_cons] at h
    exact mem_swapStep (ih _ x h)

theorem mem_shuffle {x : α} (oracle : Nat → Nat) (l : List α)
    (h : x ∈ shuffle oracle l) : x ∈ l :=
  mem_shuffle_aux oracle _ l x h

/-- Failure outcomes of `utils.rng`: `configError` embeds the explicit
`Sum of ... is ... when it should be 100` throw (carrying the computed sum);
`typeError` embeds the JavaScript TypeError of reducing an empty array, and
also stands for the `undefined` that indexing an empty shuffled array would
propagate (unreachable when the sum check passed). -/
inductive RngErr
  | typeError
  | configError (sum : Nat)
deriving DecidableEq, Repr

/-- The sum of a weighted table's chance keys (the table is embedded as an
association list in JavaScript key-enumeration order, keys distinct). -/
def sumChances (dict : List (Nat × α)) : Nat :=
  (dict.map (fun kv => kv.1)).foldl (fun a b => a + b) 0

/-- The flat array built by `utils.rng`: for each key index `i`, `chance`
copies of `i` (`if chance is 5 - add 5 items to the array`). -/
def flatIdx (chances : List Nat) : List Nat :=
  (chances.enum.map (fun ic => List.replicate ic.2 ic.1)).flatten

/-- The body of `utils.rng` after extracting `pool = Object.values(dict)` and
`chances = Object.keys(dict).map(parseInt)`: reduce the chances (a TypeError
on an empty table, as `reduce` without an initial value), require the sum to
be exactly 100, expand each key index `chance` times, shuffle, and return
the pool value and chance found at the first shuffled index.  An index miss
(impossible once the sum check passed) would propagate `undefined` in
JavaScript and is embedded as a `typeError`. -/
def rngAux (oracle : Nat → Nat) (pool : List α) (chances : List Nat) :
    Except RngErr (α × Nat) :=
  match chances with
  | [] => .error .typeError
  | c :: rest =>
    if rest.foldl (fun a b => a + b) c ≠ 100 then
      .error (.configError (rest.foldl (fun a b => a + b) c))
    else
      match shuffle oracle (flatIdx (c :: rest)) with
      | [] => .error .typeError
      | idx :: _ =>
        match pool[idx]?, (c :: rest)[idx]? with
        | some v, some ch => .ok (v, ch)
        | _, _ => .error .typeError

/-- `utils.rng` from `src/utils.ts`: the weighted table is embedded as an
association list of (chance, value) pairs in JavaScript key-enumeration
order, keys distinct; `pool` and `chances` are its two projections. -/
def rng (oracle : Nat → Nat) (dict : List (Nat × α)) : Except RngErr (α × Nat) :=
  rngAux oracle (dict.map (fun kv => kv.2)) (dict.map (fun kv => kv.1))

theorem foldl_add_eq_sum (l : List Nat) :
    ∀ a : Nat, l.foldl (fun x y => x + y) a = a + l.sum := by
  induction l with
  | nil => intro a; simp
  | cons x xs ih =>
    intro a
    rw [List.foldl_cons, ih, List.sum_cons]
    omega

theorem sumChances_eq_sum (dict : List (Nat × α)) :
    sumChances dict = (dict.map (fun kv => kv.1)).sum := by
  unfold sumChances
  rw [foldl_add_eq_sum]
  omega

theorem sumChances_cons (dict : List (Nat × α)) (c : Nat) (rest : List Nat)
    (hm : dict.map (fun kv => kv.1) = c :: rest) :
    rest.foldl (fun a b => a + b) c = sumChances dict := by
  rw [sumChances_eq_sum, hm, foldl_add_eq_sum, List.sum_cons]

theorem flatIdx_enumFrom_length (chances : List Nat) :
    ∀ n : Nat,
      (((chances.enumFrom n).map (fun ic => List.replicate ic.2 ic.1)).flatten).length
        = chances.sum := by
  induction chances with
  | nil => intro n; rfl
  | cons c cs ih =>
    intro n
    rw [List.enumFrom_cons]
    simp only [List.map_cons, List.flatten_cons, List.length_append,
      List.length_replicate, List.sum_cons, ih]

theorem flatIdx_length (chances : List Nat) :
    (flatIdx chances).length = chances.sum :=
  flatIdx_enumFrom_length chances 0

theorem mem_flatIdx_enumFrom (chances : List Nat) (x : Nat) :
    ∀ n : Nat,
      x ∈ ((chances.enumFrom n).map (fun ic => List.replicate ic.2 ic.1)).flatten →
        ∃ k, k < chances.length ∧ x = n + k := by
  induction chances with
  | nil => intro n h; cases h
  | cons c cs ih =>
    intro n h
    rw [List.enumFrom_cons] at h
    simp only [List.map_cons, List.flatten_cons] at h
    rcases List.mem_append.1 h with h | h
    · exact ⟨0, by simp, by rw [List.eq_of_mem_replicate h]; omega⟩
    · obtain ⟨k, hk, rfl⟩ := ih (n + 1) h
      exact ⟨k + 1, by simp; omega, by omega⟩

theorem mem_flatIdx_lt (chances : List Nat) (x : Nat)
    (h : x ∈ flatIdx chances) : x < chances.length := by
  obtain ⟨k, hk, rfl⟩ := mem_flatIdx_enumFrom chances x 0 h
  omega


theorem rngAux_sum100 (oracle : Nat → Nat) (pool : List α) (chances : List Nat)
    (hlen : pool.length = chances.length) (hsum : chances.sum = 100) :
    ∃ i, ∃ hi : i < chances.length, ∃ hp : i < pool.length,
      rngAux oracle pool chances
        = .ok (pool.get ⟨i, hp⟩, chances.get ⟨i, hi⟩) := by
  cases chances with
  | nil => simp at hsum
  | cons c rest =>
    have hfold : rest.foldl (fun a b => a + b) c = 100 := by
      rw [foldl_add_eq_sum]
      rw [List.sum_cons] at hsum
      omega
    have hflat : (flatIdx (c :: rest)).length = 100 := by
      rw [flatIdx_length, hsum]
    have hshuf : (shuffle oracle (flatIdx (c :: rest))).length = 100 := by
      rw [shuffle_length, hflat]
    cases hs : shuffle oracle (flatIdx (c :: rest)) with
    | nil => rw [hs] at hshuf; simp at hshuf
    | cons idx tl =>
      have hidx : idx ∈ flatIdx (c :: rest) :=
        mem_shuffle oracle _ (hs ▸ List.mem_cons_self idx tl)
      have hlt : idx < (c :: rest).length := mem_flatIdx_lt _ idx hidx
      have hplt : idx < pool.length := by rw [hlen]; exact hlt
      refine ⟨idx, hlt, hplt, ?_⟩
      have hv : pool[idx]? = some (pool.get ⟨idx, hplt⟩) := by
        rw [List.getElem?_eq_getElem hplt]
        rfl
      have hc : (c :: rest)[idx]? = some ((c :: rest).get ⟨idx, hlt⟩) := by
        rw [List.getElem?_eq_getElem hlt]
        rfl
      simp only [rngAux]
      rw [if_neg (by omega)]
      simp only [hs, hv, hc]

theorem rng_sum100 (oracle : Nat → Nat) (dict : List (Nat × α))
    (h : sumChances dict = 100) :
    (flatIdx (dict.map (fun kv => kv.1))).length = 100 ∧
      (shuffle oracle (flatIdx (dict.map (fun kv => kv.1)))).length = 100 ∧
      ∃ p ∈ dict, rng oracle dict = .ok (p.2, p.1) := by
  have hsum : (dict.map (fun kv => kv.1)).sum = 100 := by
    rw [← sumChances_eq_sum]
    exact h
  have hflat : (flatIdx (dict.map (fun kv => kv.1))).length = 100 := by
    rw [flatIdx_length, hsum]
  refine ⟨hflat, by rw [shuffle_length, hflat], ?_⟩
  obtain ⟨i, hi, hp, hr⟩ :=
    rngAux_sum100 oracle (dict.map (fun kv => kv.2))
      (dict.map (fun kv => kv.1)) (by simp) hsum
  have hid : i < dict.length := by simpa using hi
  refine ⟨dict.get ⟨i, hid⟩, List.get_mem dict i hid, ?_⟩
  unfold rng
  rw [hr]
  simp [List.get_eq_getElem, List.getElem_map]

/-- Whether an `rng` outcome is the configuration error (the explicit
`should be 100` throw). -/
def isConfigErr : Except RngErr (α × Nat) → Bool
  | .error (.configError _) => true
  | _ => false

/-- C10: whenever the chance keys of the table sum to 100, the flat array
built by `rng` has exactly 100 elements, its shuffle has exactly 100
elements (so reading the first element is defined), and `rng` returns a
genuine entry of the table: the value stored under one of its chance keys,
paired with that chance. -/
theorem rng_safe (oracle : Nat → Nat) (dict : List (Nat × α))
    (h : sumChances dict = 100) :
    (flatIdx (dict.map (fun kv => kv.1))).length = 100 ∧
      (shuffle oracle (flatIdx (dict.map (fun kv => kv.1)))).length = 100 ∧
      ∃ p ∈ dict, rng oracle dict = .ok (p.2, p.1) :=
  rng_sum100 oracle dict h

/-- C10 witness: the safety theorem applied to the one-entry table with
chance 100. -/
theorem rng_safe_witness :
    sumChances ([(100, 7)] : List (Nat × Nat)) = 100 ∧
      (flatIdx (([(100, 7)] : List (Nat × Nat)).map (fun kv => kv.1))).length
        = 100 :=
  ⟨rfl, (rng_safe (fun _ => 0) ([(100, 7)] : List (Nat × Nat)) rfl).1⟩

/-- C4 counterexample: the empty table has chance sum 0, which differs from
100, yet `rng` raises the TypeError of reducing an empty array rather than
the configuration error, so the claimed equivalence fails on the empty
table. -/
theorem rng_empty_table_typeError :
    rng (fun _ => 0) ([] : List (Nat × Nat)) = Except.error RngErr.typeError ∧
      isConfigErr (rng (fun _ => 0) ([] : List (Nat × Nat))) = false ∧
      sumChances ([] : List (Nat × Nat)) ≠ 100 :=
  ⟨rfl, rfl, by decide⟩

/-- C4 (amended): for every nonempty table, `rng` throws the configuration
error exactly when the chance keys do not sum to 100, and when they do sum
to 100 it never throws and returns one of the entries of the table.  (The
empty table instead throws a TypeError from reducing an empty array.) -/
theorem rng_config_iff (oracle : Nat → Nat) (dict : List (Nat × α))
    (hne : dict ≠ []) :
    (isConfigErr (rng oracle dict) = true ↔ sumChances dict ≠ 100) ∧
      (sumChances dict = 100 → ∃ p ∈ dict, rng oracle dict = .ok (p.2, p.1)) := by
  constructor
  · constructor
    · intro hcfg heq
      obtain ⟨p, hp, hr⟩ := (rng_sum100 oracle dict heq).2.2
      rw [hr] at hcfg
      simp [isConfigErr] at hcfg
    · intro hsum
      cases hm : dict.map (fun kv => kv.1) with
      | nil =>
        rw [List.map_eq_nil_iff] at hm
        exact absurd hm hne
      | cons c rest =>
        have hfold : rest.foldl (fun a b => a + b) c = sumChances dict :=
          sumChances_cons dict c rest hm
        unfold rng
        rw [hm]
        simp only [rngAux]
        rw [if_pos (by omega)]
        rfl
  · intro h
    exact (rng_sum100 oracle dict h).2.2

/-- C4 witness: the amended equivalence applied to the one-entry table with
chance 100. -/
theorem rng_config_iff_witness :
    (([(100, 7)] : List (Nat × Nat)) ≠ []) ∧
      (isConfigErr (rng (fun _ => 0) ([(100, 7)] : List (Nat × Nat))) = true
        ↔ sumChances ([(100, 7)] : List (Nat × Nat)) ≠ 100) :=
  ⟨by decide,
    (rng_config_iff (fun _ => 0) ([(100, 7)] : List (Nat × Nat)) (by decide)).1⟩

/-! ### `packs.pool` from `src/packs.ts` -/

/-- `CharacterRole` from `src/types.ts`. -/
inductive CharacterRole
  | Main
  | Supporting
  | Background
deriving DecidableEq, Repr

/-- A pool entry `{id, mediaId, rating}` as stored in the precomputed bracket
cache and produced by the pack aggregation loop; the string ids
`packId:id` are embedded as numbers. -/
structure PoolEntry where
  id : Nat
  mediaId : Nat
  rating : Nat
deriving DecidableEq, Repr

/-- One bracket's buckets in the precomputed AniList pool cache
(`packs/anilist/pool.json`): all characters plus the three per-role lists. -/
structure CacheBuckets where
  ALL : List PoolEntry
  MAIN : List PoolEntry
  SUPPORTING : List PoolEntry
  BACKGROUND : List PoolEntry
deriving DecidableEq, Repr

/-- Failure of `packs.pool`: indexing the cache with an absent bracket key
yields `undefined`, and reading the role bucket of `undefined` throws. -/
inductive PackErr
  | typeError
deriving DecidableEq, Repr

/-- Bucket selection `anilist[key][role ?? 'ALL']`. -/
def roleBucket (b : CacheBuckets) : Option CharacterRole → List PoolEntry
  | none => b.ALL
  | some .Main => b.MAIN
  | some .Supporting => b.SUPPORTING
  | some .Background => b.BACKGROUND

/-- The base candidate list of `packs.pool`: when an exact star rating is
requested, the concatenation of the `ALL` bucket of every cached bracket
(`Object.values(anilist).forEach(pool.concat(range.ALL))`); otherwise the
role bucket of the single bracket keyed by `JSON.stringify(range)`.  The
cache is embedded as an association list from bracket key (the popularity
range array) to buckets, in key-enumeration order. -/
def poolBase (cache : List (List Nat × CacheBuckets)) (range? : Option (List Nat))
    (role? : Option CharacterRole) (stars? : Option Nat) :
    Except PackErr (List PoolEntry) :=
  match stars? with
  | some _ => .ok ((cache.map (fun kv => kv.2.ALL)).flatten)
  | none =>
    match range? with
    | none => .error .typeError
    | some r =>
      match cache.find? (fun kv => kv.1 == r) with
      | none => .error .typeError
      | some kv => .ok (roleBucket kv.2 role?)

/-- The exact-stars rejection test of the final filter:
`typeof stars === 'number' && rating !== stars`. -/
def starsReject (stars? : Option Nat) (e : PoolEntry) : Bool :=
  match stars? with
  | some s => e.rating != s
  | none => false

/-- The final filter of `packs.pool` with its mutable `occurrences` record:
drop an entry when the exact-stars test rejects it or its `mediaId` was
already seen; otherwise keep it and mark the `mediaId` seen. -/
def dedupFilter (stars? : Option Nat) : List PoolEntry → List Nat → List PoolEntry
  | [], _ => []
  | e :: rest, seen =>
    if starsReject stars? e then dedupFilter stars? rest seen
    else if seen.contains e.mediaId then dedupFilter stars? rest seen
    else e :: dedupFilter stars? rest (e.mediaId :: seen)

/-- `packs.pool` from `src/packs.ts`: build the base candidate list from the
cache, concatenate the installed packs' aggregated entries (`packPool`, the
output of the manifest loop over `packs.all`), shuffle, then filter with the
first-seen-wins `mediaId` dedup (and the exact-stars test when given). -/
def pool (oracle : Nat → Nat) (cache : List (List Nat × CacheBuckets))
    (packPool : List PoolEntry) (range? : Option (List Nat))
    (role? : Option CharacterRole) (stars? : Option Nat) :
    Except PackErr (List PoolEntry) :=
  match poolBase cache range? role? stars? with
  | .error e => .error e
  | .ok base =>
    .ok (dedupFilter stars? (shuffle oracle (base ++ packPool)) [])

theorem dedupFilter_nodup (stars? : Option Nat) :
    ∀ (l : List PoolEntry) (seen : List Nat),
      ((dedupFilter stars? l seen).map PoolEntry.mediaId).Nodup ∧
        ∀ m ∈ (dedupFilter stars? l seen).map PoolEntry.mediaId,
          seen.contains m = false := by
  intro l
  induction l with
  | nil => intro seen; exact ⟨List.nodup_nil, by intro m hm; cases hm⟩
  | cons e rest ih =>
    intro seen
    unfold dedupFilter
    split
    · exact ih seen
    · split
      · exact ih seen
      · rename_i hrej hseen
        obtain ⟨hn, hf⟩ := ih (e.mediaId :: seen)
        rw [List.map_cons]
        constructor
        · rw [List.nodup_cons]
          refine ⟨?_, hn⟩
          intro hmem
          have := hf e.mediaId hmem
          simp at this
        · intro m hm
          rcases List.mem_cons.1 hm with rfl | hm
          · simpa using hseen
          · have := hf m hm
            simp at this
            simpa using this.2

theorem dedupFilter_find (stars? : Option Nat) :
    ∀ (l : List PoolEntry) (seen : List Nat) (m : Nat),
      seen.contains m = false →
        (dedupFilter stars? l seen).find? (fun e => e.mediaId == m)
          = (l.filter (fun e => !starsReject stars? e)).find?
              (fun e => e.mediaId == m) := by
  intro l
  induction l with
  | nil => intro seen m hm; rfl
  | cons e rest ih =>
    intro seen m hm
    unfold dedupFilter
    cases hrej : starsReject stars? e with
    | true =>
      rw [if_pos rfl]
      rw [List.filter_cons_of_neg (by simp [hrej])]
      exact ih seen m hm
    | false =>
      rw [if_neg (by simp)]
      rw [List.filter_cons_of_pos (by simp [hrej])]
      cases hseen : seen.contains e.mediaId with
      | true =>
        rw [if_pos rfl]
        have hne : (e.mediaId == m) = false := by
          by_cases hx : e.mediaId = m
          · subst hx; rw [hseen] at hm; cases hm
          · simpa using hx
        rw [List.find?_cons_of_neg _ (by simp [hne])]
        exact ih seen m hm
      | false =>
        rw [if_neg (by simp)]
        cases hem : (e.mediaId == m) with
        | true =>
          rw [List.find?_cons_of_pos _ (by simp [hem]),
            List.find?_cons_of_pos _ (by simp [hem])]
        | false =>
          rw [List.find?_cons_of_neg _ (by simp [hem]),
            List.find?_cons_of_neg _ (by simp [hem])]
          refine ih (e.mediaId :: seen) m ?_
          simp at hem ⊢
          exact ⟨fun hx => hem hx.symm, by simpa using hm⟩

theorem dedupFilter_subset (stars? : Option Nat) :
    ∀ (l : List PoolEntry) (seen : List Nat) (e : PoolEntry),
      e ∈ dedupFilter stars? l seen → e ∈ l := by
  intro l
  induction l with
  | nil => intro seen e h; cases h
  | cons x rest ih =>
    intro seen e h
    unfold dedupFilter at h
    split at h
    · exact List.mem_cons_of_mem x (ih seen e h)
    · split at h
      · exact List.mem_cons_of_mem x (ih seen e h)
      · rcases List.mem_cons.1 h with rfl | h
        · exact List.mem_cons_self e rest
        · exact List.mem_cons_of_mem x (ih (x.mediaId :: seen) e h)

theorem dedupFilter_rating (s : Nat) :
    ∀ (l : List PoolEntry) (seen : List Nat) (e : PoolEntry),
      e ∈ dedupFilter (some s) l seen → e.rating = s := by
  intro l
  induction l with
  | nil => intro seen e h; cases h
  | cons x rest ih =>
    intro seen e h
    unfold dedupFilter at h
    split at h
    · exact ih seen e h
    · split at h
      · exact ih seen e h
      · rcases List.mem_cons.1 h with rfl | h
        · rename_i hrej _
          simp [starsReject] at hrej
          exact hrej
        · exact ih (x.mediaId :: seen) e h

/-- C3: the list returned by `packs.pool` never contains two entries with the
same `mediaId`, and per distinct media exactly the first-seen entry of the
shuffled, stars-filtered candidate sequence survives (the `find?`
characterization below: looking any media id up in the result finds the same
entry as looking it up in the shuffled filtered sequence). -/
theorem pool_mediaId_unique (oracle : Nat → Nat)
    (cache : List (List Nat × CacheBuckets)) (packPool : List PoolEntry)
    (range? : Option (List Nat)) (role? : Option CharacterRole)
    (stars? : Option Nat) (l : List PoolEntry)
    (h : pool oracle cache packPool range? role? stars? = .ok l) :
    (l.map PoolEntry.mediaId).Nodup ∧
      ∀ base, poolBase cache range? role? stars? = .ok base →
        ∀ m, l.find? (fun e => e.mediaId == m)
          = ((shuffle oracle (base ++ packPool)).filter
              (fun e => !starsReject stars? e)).find? (fun e => e.mediaId == m) := by
  unfold pool at h
  cases hb : poolBase cache range? role? stars? with
  | error e => rw [hb] at h; exact absurd h (by simp)
  | ok base =>
    simp only [hb] at h
    injection h with hl
    subst hl
    constructor
    · exact (dedupFilter_nodup stars? _ []).1
    · intro base2 hb2 m
      injection hb2 with hbb
      subst hbb
      exact dedupFilter_find stars? _ [] m rfl

/-- C7: when an exact star rating is requested instead of a bracket, the base
candidate list of `packs.pool` is the concatenation of the `ALL` bucket of
every cached bracket (not a single bracket), and every entry of the returned
pool has the requested rating and comes from that concatenation or from the
installed packs' aggregated entries. -/
theorem pool_exactStars (oracle : Nat → Nat)
    (cache : List (List Nat × CacheBuckets)) (packPool : List PoolEntry)
    (range? : Option (List Nat)) (role? : Option CharacterRole) (s : Nat)
    (l : List PoolEntry) :
    poolBase cache range? role? (some s)
        = .ok ((cache.map (fun kv => kv.2.ALL)).flatten) ∧
      (pool oracle cache packPool range? role? (some s) = .ok l →
        ∀ e ∈ l, e.rating = s ∧
          e ∈ (cache.map (fun kv => kv.2.ALL)).flatten ++ packPool) := by
  refine ⟨rfl, ?_⟩
  intro h e he
  unfold pool at h
  simp only [poolBase] at h
  injection h with hl
  subst hl
  refine ⟨dedupFilter_rating s _ [] e he, ?_⟩
  exact mem_shuffle oracle _ (dedupFilter_subset (some s) _ [] e he)

/-- A one-bracket cache fixture with two entries sharing a media. -/
def cacheFixture : List (List Nat × CacheBuckets) :=
  [([1000, 50000],
    ⟨[⟨1, 10, 2⟩, ⟨2, 10, 3⟩, ⟨3, 11, 1⟩], [], [], []⟩)]

/-- C3 witness: on the one-bracket fixture the dedup filter keeps one entry
per media. -/
theorem pool_mediaId_unique_witness :
    pool (fun _ => 0) cacheFixture [] (some [1000, 50000]) none none
        = Except.ok [⟨3, 11, 1⟩, ⟨1, 10, 2⟩] ∧
      (([⟨3, 11, 1⟩, ⟨1, 10, 2⟩] : List PoolEntry).map PoolEntry.mediaId).Nodup :=
  ⟨rfl,
    (pool_mediaId_unique (fun _ => 0) cacheFixture [] (some [1000, 50000])
      none none [⟨3, 11, 1⟩, ⟨1, 10, 2⟩] rfl).1⟩

/-- A two-bracket cache fixture whose `ALL` buckets both contribute. -/
def cacheFixture2 : List (List Nat × CacheBuckets) :=
  [([1000, 50000], ⟨[⟨1, 10, 3⟩], [], [], []⟩),
   ([50000, 100000], ⟨[⟨2, 20, 3⟩, ⟨5, 21, 2⟩], [], [], []⟩)]

/-- C7 witness: the exact-stars theorem applied to the two-bracket fixture
with stars 3. -/
theorem pool_exactStars_witness :
    pool (fun _ => 0) cacheFixture2 [] none none (some 3)
        = Except.ok [⟨1, 10, 3⟩, ⟨2, 20, 3⟩] ∧
      ((⟨1, 10, 3⟩ : PoolEntry).rating = 3 ∧
        (⟨1, 10, 3⟩ : PoolEntry)
          ∈ (cacheFixture2.map (fun kv => kv.2.ALL)).flatten ++ []) :=
  ⟨rfl,
    (pool_exactStars (fun _ => 0) cacheFixture2 [] none none 3
        [⟨1, 10, 3⟩, ⟨2, 20, 3⟩]).2 rfl ⟨1, 10, 3⟩ (by decide)⟩

/-! ### The Rating Calculator, modelled from the specification -/

/-- Modelled from the spec: the role-independent popularity bracket of the
Rating Calculator (spec section 4.1).  The implementation file
`src/rating.ts` is not among the provided sources (only its tests and
callers are), so this follows the spec text: popularity below 5000 gives
tier 1, below 59999 tier 2, below 199999 tier 3, below 399999 tier 4,
otherwise tier 5; an absent popularity gives tier 1. -/
def tierIndep : Option Nat → Nat
  | none => 1
  | some p =>
    if p < 5000 then 1
    else if p < 59999 then 2
    else if p < 199999 then 3
    else if p < 399999 then 4
    else 5

/-- Modelled from the spec: the role-specific shift of spec section 4.1 —
Background never exceeds tier 2 regardless of popularity, Main adds one tier
step capped at 5, Supporting keeps the role-independent bracket. -/
def roleShift : CharacterRole → Nat → Nat
  | .Background, t => Nat.min t 2
  | .Main, t => Nat.min (t + 1) 5
  | .Supporting, t => t

/-- Modelled from the spec: the star computation of the missing `Rating`
class for a (role, popularity) input.  When a role is supplied the
role-shifted tier governs; the spec marks the Background cap as intentional
(background characters must not reach top rarity through popularity alone),
which is incompatible with returning the higher of the two tiers for
Background, so the cap overrides. -/
def Rating.stars (role? : Option CharacterRole) (popularity? : Option Nat) :
    Nat :=
  match role? with
  | none => tierIndep popularity?
  | some r => roleShift r (tierIndep popularity?)

theorem tierIndep_bounds (p? : Option Nat) :
    1 ≤ tierIndep p? ∧ tierIndep p? ≤ 5 := by
  cases p? with
  | none => exact ⟨Nat.le_refl 1, by decide⟩
  | some p =>
    simp only [tierIndep]
    split_ifs <;> omega

theorem tierIndep_mono (p1 p2 : Nat) (h : p1 ≤ p2) :
    tierIndep (some p1) ≤ tierIndep (some p2) := by
  simp only [tierIndep]
  split_ifs <;> omega

/-- C2 counterexample: at Background role and popularity 1000000 the modelled
rating is 2, while the higher of the role-independent tier (5) and the
role-shifted tier (2) is 5 — the function does not return the higher of the
two computed tiers for Background; conversely any function that did return
the higher of the two would exceed tier 2 there, contradicting the claimed
Background cap. -/
theorem rating_background_not_max :
    Rating.stars (some CharacterRole.Background) (some 1000000) = 2 ∧
      Nat.max (tierIndep (some 1000000))
        (roleShift CharacterRole.Background (tierIndep (some 1000000))) = 5 ∧
      (2 : Nat) ≠ 5 :=
  ⟨rfl, rfl, by decide⟩

/-- C2 (amended): the rating is always clamped to 1..5; for Main and
Supporting roles (and for no role) it equals the higher of the
role-independent tier and the role-shifted tier (Main exactly one step above
the bracket capped at 5, Supporting the bracket itself), but for Background
the role cap overrides the role-independent tier, so the result never
exceeds tier 2 regardless of popularity. -/
theorem rating_role_characterization (role? : Option CharacterRole)
    (p? : Option Nat) :
    1 ≤ Rating.stars role? p? ∧ Rating.stars role? p? ≤ 5 ∧
      Rating.stars (some CharacterRole.Main) p?
        = Nat.max (tierIndep p?) (roleShift CharacterRole.Main (tierIndep p?)) ∧
      Rating.stars (some CharacterRole.Supporting) p?
        = Nat.max (tierIndep p?)
            (roleShift CharacterRole.Supporting (tierIndep p?)) ∧
      Rating.stars (some CharacterRole.Background) p? ≤ 2 ∧
      Rating.stars none p? = tierIndep p? := by
  obtain ⟨h1, h5⟩ := tierIndep_bounds p?
  refine ⟨?_, ?_, ?_, ?_, ?_, rfl⟩
  · cases role? with
    | none => exact h1
    | some r =>
      cases r <;> simp only [Rating.stars, roleShift, Nat.min_def] <;>
        first | omega | (split_ifs <;> omega)
  · cases role? with
    | none => exact h5
    | some r =>
      cases r <;> simp only [Rating.stars, roleShift, Nat.min_def] <;>
        first | omega | (split_ifs <;> omega)
  · simp only [Rating.stars, roleShift, Nat.min_def, Nat.max_def]
    split_ifs <;> omega
  · simp only [Rating.stars, roleShift, Nat.min_def, Nat.max_def]
    split_ifs <;> omega
  · simp only [Rating.stars, roleShift, Nat.min_def]
    split_ifs <;> omega

/-- C8: the modelled Rating Calculator is monotonic in popularity within a
fixed role (and deterministic: it is a pure function of its two arguments).
-/
theorem rating_mono (role? : Option CharacterRole) (p1 p2 : Nat)
    (h : p1 < p2) :
    Rating.stars role? (some p1) ≤ Rating.stars role? (some p2) := by
  have hm := tierIndep_mono p1 p2 (Nat.le_of_lt h)
  cases role? with
  | none => exact hm
  | some r =>
    cases r <;> simp only [Rating.stars, roleShift, Nat.min_def] <;>
      first | omega | (split_ifs <;> omega)

/-- C8 witness: monotonicity applied at the Main role between popularities
1000 and 60000. -/
theorem rating_mono_witness :
    1000 < 60000 ∧
      Rating.stars (some CharacterRole.Main) (some 1000)
        ≤ Rating.stars (some CharacterRole.Main) (some 60000) :=
  ⟨by decide, rating_mono (some CharacterRole.Main) 1000 60000 (by decide)⟩
